import Mathlib

/-!
Verification of the reconciliation / cleaning / chunking pipeline of
`ExtractTextFromSlide` (src/main.py).

Python strings are modelled as `List Char` (sequences of Unicode code points);
top-level functions keep the Italian names of the source.  Side effects
(progress printing, interactive prompting, actual file-system access) are
dropped or made explicit inputs; floating-point similarity ratios are modelled
with exact rationals.
-/

set_option maxRecDepth 100000

/-- The whitespace class of Python's `str.strip` / `\s` (ASCII part). -/
def isSpCb (c : Char) : Bool :=
  c == ' ' || c == '\t' || c == '\n' || c == '\r' || c == '\x0b' || c == '\x0c'

/-- Sentence-terminator characters `.`, `!`, `?` (the class `[.!?]`). -/
def isTermCb (c : Char) : Bool :=
  c == '.' || c == '!' || c == '?'

/-- Python `str.strip()`: drop leading and trailing whitespace. -/
def stripL (l : List Char) : List Char :=
  ((l.dropWhile isSpCb).reverse.dropWhile isSpCb).reverse

/-- Python `str.strip()` on `String`. -/
def stripS (s : String) : String :=
  String.mk (stripL s.data)

/-- Python `str.lower()` (ASCII case folding; the source's inputs of interest
are ASCII plus math symbols, which are caseless here). -/
def lowerL (l : List Char) : List Char :=
  l.map Char.toLower

/-- `str.lower()` on `String`. -/
def lowerS (s : String) : String :=
  String.mk (lowerL s.data)

/-- Helper of `splitWsL`: `cur` is the current word, reversed. -/
def splitWsGo : List Char → List Char → List (List Char)
  | [], cur => if cur = [] then [] else [cur.reverse]
  | c :: rest, cur =>
    if isSpCb c then
      (if cur = [] then splitWsGo rest [] else cur.reverse :: splitWsGo rest [])
    else splitWsGo rest (c :: cur)

/-- Python `str.split()` with no argument: split on whitespace runs,
dropping empty pieces. -/
def splitWsL (l : List Char) : List (List Char) :=
  splitWsGo l []

/-- Helper of `splitKeepL`: `piece` is the current text piece (reversed),
`run` the current terminator run (reversed). -/
def splitKeepGo : List Char → List Char → List Char → List (List Char)
  | [], piece, run =>
    if run = [] then [piece.reverse] else [piece.reverse, run.reverse, []]
  | c :: rest, piece, run =>
    if isTermCb c then splitKeepGo rest piece (c :: run)
    else if run = [] then splitKeepGo rest (c :: piece) run
    else piece.reverse :: run.reverse :: splitKeepGo rest [c] []

/-- Python `re.split(r'([.!?]+)', l)`: alternating list
text, delimiter-run, text, …, text (always of odd length). -/
def splitKeepL (l : List Char) : List (List Char) :=
  splitKeepGo l [] []

/-- Elements at even positions of a list. -/
def evens {α : Type} : List α → List α
  | [] => []
  | [x] => [x]
  | x :: _ :: rest => x :: evens rest

/-- Python `re.split(r'[.!?]+', l)`: the non-delimiter pieces, i.e. the even
positions of the capturing split. -/
def splitDropL (l : List Char) : List (List Char) :=
  evens (splitKeepL l)

/-- `re.split(r'[.!?]+', s)` on `String`. -/
def splitDropS (s : String) : List String :=
  (splitDropL s.data).map String.mk

/-- Length of the common prefix of two character lists. -/
def cpl : List Char → List Char → Nat
  | a :: as_, b :: bs => if a = b then cpl as_ bs + 1 else 0
  | _, _ => 0

/-- Ascending list `[s, s+1, …, s+k-1]`. -/
def natsFrom (s : Nat) : Nat → List Nat
  | 0 => []
  | k + 1 => s :: natsFrom (s + 1) k

/-- All index pairs `(i, j)` with `i ∈ [first, first+rows)` and `j ∈ [0, m)`,
in lexicographic order. -/
def pairsFrom (first : Nat) (rows m : Nat) : List (Nat × Nat) :=
  match rows with
  | 0 => []
  | k + 1 => ((natsFrom 0 m).map (fun j => (first, j))) ++ pairsFrom (first + 1) k m

/-- Scan candidate block positions in order, keeping the first strictly
longest one (so ties resolve to the earliest start in `a`, then in `b`). -/
def bestOver (a b : List Char) : List (Nat × Nat) → Nat × Nat × Nat → Nat × Nat × Nat
  | [], acc => acc
  | p :: ps, acc =>
    let k := cpl (a.drop p.1) (b.drop p.2)
    bestOver a b ps (if acc.2.2 < k then (p.1, p.2, k) else acc)

/-- Modelled from the spec: the "standard greedy longest-matching-block"
step of the Ratcliff/Obershelp similarity (§4.2 SimilarityScorer), i.e. the
contract of `difflib.SequenceMatcher.find_longest_match` (external standard
library, not part of src/): of all maximal matching blocks return the one
starting earliest in `a`, then earliest in `b`.  Returns `(i, j, k)`. -/
def bestMatch (a b : List Char) : Nat × Nat × Nat :=
  bestOver a b (pairsFrom 0 a.length b.length) (0, 0, 0)

/-- Modelled from the spec: total matched length `M` of the recursive
matching-block decomposition (§4.2), with an explicit fuel bound; the initial
fuel `a.length + b.length + 1` always exceeds the recursion depth, since each
recursive call strictly decreases the combined length. -/
def matchTotalF : Nat → List Char → List Char → Nat
  | 0, _, _ => 0
  | fuel + 1, a, b =>
    let m := bestMatch a b
    if m.2.2 = 0 then 0
    else
      matchTotalF fuel (a.take m.1) (b.take m.2.1) + m.2.2 +
        matchTotalF fuel (a.drop (m.1 + m.2.2)) (b.drop (m.2.1 + m.2.2))

/-- Total matched length `M` between two character lists. -/
def matchTotal (a b : List Char) : Nat :=
  matchTotalF (a.length + b.length + 1) a b

/-- Modelled from the spec: the similarity ratio `2·M / (len a + len b)`
of §4.2, as an exact rational. -/
def rapporto (a b : List Char) : ℚ :=
  2 * (matchTotal a b : ℚ) / ((a.length : ℚ) + (b.length : ℚ))

/-- `calcola_similarita` (src/main.py lines 103–107): `0.0` if either input is
empty, else the case-folded matching-block ratio. -/
def calcola_similarita (testo1 testo2 : String) : ℚ :=
  if testo1 = "" ∨ testo2 = "" then 0
  else rapporto (lowerL testo1.data) (lowerL testo2.data)

/-- The Greek-letter part of the retained math-symbol set; Python's `\w`
matches these as word characters (full Unicode `\w` beyond ASCII and this set
is not modelled; the repository's inputs of interest stay within it). -/
def greekChars : List Char :=
  "αβγδεθλμπστφωΣΔΦΩ".data

/-- Python's `\w` word-character class as used by the source. -/
def isWordCb (c : Char) : Bool :=
  c.isAlphanum || c == '_' || greekChars.contains c

/-- The explicit character allow-list of `is_frase_valida` (punctuation plus
retained math symbols), src/main.py line 140. -/
def carValidiSet : List Char :=
  ".,;:!?()+-*/=<>[]{}^_αβγδεθλμπστφωΣΔΦΩ±×÷≈≠≤≥∞∂∇∫√".data

/-- One character of the valid-character count of `is_frase_valida`:
alphanumeric, whitespace, or in the allow-list. -/
def isCarValido (c : Char) : Bool :=
  c.isAlphanum || isSpCb c || carValidiSet.contains c

/-- `re.search(r'([^\w\s])\1{4,}', l)`: some non-word, non-space character
repeated at least 5 times consecutively. -/
def haRipetizione : List Char → Bool
  | c1 :: c2 :: c3 :: c4 :: c5 :: rest =>
    (!isWordCb c1 && !isSpCb c1 && c2 == c1 && c3 == c1 && c4 == c1 && c5 == c1) ||
      haRipetizione (c2 :: c3 :: c4 :: c5 :: rest)
  | _ => false

/-- `is_frase_valida` (src/main.py lines 129–152).  The float comparison
`caratteri_validi / len(frase) < 0.6` is modelled exactly by
cross-multiplication (`10·valid < 6·len`, equivalent for `len > 0`). -/
def is_frase_valida (frase : String) : Bool :=
  let parole := splitWsL frase.data
  if parole.length < 2 then false
  else
    let caratteri_validi := (frase.data.filter isCarValido).length
    if 0 < frase.data.length ∧ 10 * caratteri_validi < 6 * frase.data.length then
      false
    else if haRipetizione frase.data then false
    else true

/-- The per-fragment loop of `trova_frasi_uniche` (src/main.py lines 168–188):
strip, skip short or invalid fragments, skip fragments whose similarity to
some base fragment exceeds 0.85 (the source iterates a `set` and breaks on the
first hit, which is existence over the underlying list), keep the rest in
order. -/
def trovaLoop (frasi_base : List String) : List String → List String
  | [] => []
  | frase :: rest =>
    let frase_pulita := stripS frase
    if frase_pulita = "" ∨ frase_pulita.length < 15 then trovaLoop frasi_base rest
    else if is_frase_valida frase_pulita = false then trovaLoop frasi_base rest
    else if ∃ frase_base ∈ frasi_base,
        calcola_similarita (lowerS frase_pulita) (stripS frase_base) > 85 / 100 then
      trovaLoop frasi_base rest
    else frase_pulita :: trovaLoop frasi_base rest

/-- `trova_frasi_uniche` (src/main.py lines 154–190). -/
def trova_frasi_uniche (testo_base testo_ocr : String) : List String :=
  if testo_ocr = "" then []
  else if testo_base = "" then
    ((splitDropS testo_ocr).map stripS).filter
      (fun f => 15 < f.length && is_frase_valida f)
  else
    let frasi_base := splitDropS (lowerS testo_base)
    let frasi_ocr := splitDropS testo_ocr
    trovaLoop frasi_base frasi_ocr

/-- `unisci_testo_pagina` (src/main.py lines 192–224); the page-number
argument is only used for progress printing and is omitted. -/
def unisci_testo_pagina (testo_nativo testo_ocr : String) : String :=
  if testo_nativo = "" ∨ (stripS testo_nativo).length < 10 then
    (if testo_ocr ≠ "" then testo_ocr else "")
  else if testo_ocr = "" ∨ (stripS testo_ocr).length < 10 then
    testo_nativo
  else if calcola_similarita testo_nativo testo_ocr > 8 / 10 then
    testo_nativo
  else
    let frasi_nuove := trova_frasi_uniche testo_nativo testo_ocr
    if frasi_nuove ≠ [] then
      testo_nativo ++ ". " ++ String.intercalate ". " frasi_nuove
    else testo_nativo

/-- Word count of a sentence fragment: `len(frase.split())`. -/
def wc (f : List Char) : Nat :=
  (splitWsL f).length

/-- Cumulative word count of a block of fragments. -/
def wcSum (B : List (List Char)) : Nat :=
  (B.map wc).sum

/-- The pairing loop of `dividi_in_blocchi_con_frasi` (src/main.py lines
261–265): glue each text piece to the following terminator run and strip. -/
def coppie : List (List Char) → List (List Char)
  | t :: d :: rest => stripL (t ++ d) :: coppie rest
  | _ => []

/-- The sentence fragments of `dividi_in_blocchi_con_frasi` (src/main.py
lines 259–268): capturing split, pairing, plus the stripped dangling tail when
the split has odd length and the tail is non-blank. -/
def frasi_complete (testo : String) : List (List Char) :=
  let frasi := splitKeepL testo.data
  let fc := coppie frasi
  if frasi.length % 2 = 1 ∧ stripL (frasi.getLastD []) ≠ [] then
    fc ++ [stripL (frasi.getLastD [])]
  else fc

/-- The greedy accumulation loop of `dividi_in_blocchi_con_frasi`
(src/main.py lines 270–287), kept as a list of blocks of fragments;
`cur` is `blocco_corrente`, `cnt` is `conteggio_parole`. -/
def buildBlocks (parole_per_blocco : Nat) :
    List (List Char) → List (List Char) → Nat → List (List (List Char))
  | [], cur, _ => if cur = [] then [] else [cur]
  | frase :: rest, cur, cnt =>
    let num_parole := wc frase
    if cnt + num_parole > parole_per_blocco ∧ cur ≠ [] then
      cur :: buildBlocks parole_per_blocco rest [frase] num_parole
    else
      buildBlocks parole_per_blocco rest (cur ++ [frase]) (cnt + num_parole)

/-- The block structure produced by `dividi_in_blocchi_con_frasi` before the
final string joins. -/
def blocchiDi (testo : String) (parole_per_blocco : Nat) : List (List (List Char)) :=
  buildBlocks parole_per_blocco (frasi_complete testo) [] 0

/-- `dividi_in_blocchi_con_frasi` (src/main.py lines 257–289): blocks joined
by a blank line, fragments inside a block joined by spaces. -/
def dividi_in_blocchi_con_frasi (testo : String) (parole_per_blocco : Nat) : String :=
  String.mk
    (List.intercalate ('\n' :: '\n' :: [])
      ((blocchiDi testo parole_per_blocco).map (List.intercalate [' '])))

/-- The decorative glyphs removed by `pulisci_testo_ocr` (src/main.py
line 23). -/
def glifiDecorativi : List Char :=
  "•◦▪▫●○■□★☆♦♣♠♥".data

/-- Python `str.split('\n')`, keeping empty pieces. -/
def splitNlGo : List Char → List Char → List (List Char)
  | [], cur => [cur.reverse]
  | c :: rest, cur =>
    if c == '\n' then cur.reverse :: splitNlGo rest [] else splitNlGo rest (c :: cur)

/-- Split into lines at `'\n'`. -/
def splitNl (l : List Char) : List (List Char) :=
  splitNlGo l []

/-- Character class of the digits-only-line pattern of src/main.py line 37
(page numbers and dates): digits, whitespace, dash, slash. -/
def isNumLineaCb (c : Char) : Bool :=
  c.isDigit || isSpCb c || c == '-' || c == '/'

/-- Character class of the separator-artifact pattern of src/main.py line 54:
whitespace, pipe, dash, underscore, equals, tilde, backtick (code 96). -/
def isArtefattoCb (c : Char) : Bool :=
  isSpCb c || c == '|' || c == '-' || c == '_' || c == '=' || c == '~' ||
    c == Char.ofNat 96

/-- `re.search(r'[^\w\s]{5,}', l)`: five consecutive characters that are
neither word characters nor whitespace. -/
def haRumore : List Char → Bool
  | c1 :: c2 :: c3 :: c4 :: c5 :: rest =>
    (!isWordCb c1 && !isSpCb c1 && !isWordCb c2 && !isSpCb c2 &&
     !isWordCb c3 && !isSpCb c3 && !isWordCb c4 && !isSpCb c4 &&
     !isWordCb c5 && !isSpCb c5) ||
      haRumore (c2 :: c3 :: c4 :: c5 :: rest)
  | _ => false

/-- Drop everything up to and past the first occurrence of `pat`; `none` when
`pat` does not occur. -/
def dropAfterSub (pat : List Char) : List Char → Option (List Char)
  | [] => if pat.isPrefixOf ([] : List Char) then some [] else none
  | c :: t =>
    if pat.isPrefixOf (c :: t) then some ((c :: t).drop pat.length)
    else dropAfterSub pat t

/-- `re.search(p₁.*p₂.*…)`: the patterns occur in order (taking the earliest
occurrence of each is complete for existence). -/
def containsInOrder : List (List Char) → List Char → Bool
  | [], _ => true
  | p :: ps, l =>
    match dropAfterSub p l with
    | some rest => containsInOrder ps rest
    | none => false

/-- The header/footer signature of src/main.py line 41, case-folded. -/
def headerPats : List (List Char) :=
  ["andrea asperti".data, "università".data, "bologna".data, "disi".data]

/-- All elements equal to the first (`len(set(parole)) == 1`). -/
def tuttiUguali : List (List Char) → Bool
  | [] => true
  | x :: xs => xs.all (fun y => y == x)

/-- The line filter of `pulisci_testo_ocr` (src/main.py lines 29–57), applied
to an already stripped line: `true` means the line is kept. -/
def tieniLinea (linea : List Char) : Bool :=
  if linea.length < 3 then false
  else if linea.all isNumLineaCb && linea.length < 15 then false
  else if containsInOrder headerPats (lowerL linea) then false
  else if (splitWsL linea).length > 2 && tuttiUguali (splitWsL linea) then false
  else if haRumore linea then false
  else if linea.all isArtefattoCb then false
  else true

/-- `re.sub(r'\s+', ' ', l)`: collapse whitespace runs to one space; `prev`
records whether the previous character was whitespace. -/
def collapseGo : List Char → Bool → List Char
  | [], _ => []
  | c :: rest, prev =>
    if isSpCb c then
      (if prev then collapseGo rest true else ' ' :: collapseGo rest true)
    else c :: collapseGo rest false

/-- The punctuation class `[.,;:!?]` of the spacing fixes. -/
def isPunctCb (c : Char) : Bool :=
  c == '.' || c == ',' || c == ';' || c == ':' || c == '!' || c == '?'

/-- `re.sub(r'\s+([.,;:!?])', r'\1', l)`: drop a whitespace run directly
before punctuation; `pend` holds the pending run, reversed. -/
def togliSpaziPrimaGo : List Char → List Char → List Char
  | pend, [] => pend.reverse
  | pend, c :: rest =>
    if isSpCb c then togliSpaziPrimaGo (c :: pend) rest
    else if isPunctCb c then c :: togliSpaziPrimaGo [] rest
    else pend.reverse ++ c :: togliSpaziPrimaGo [] rest

/-- The class `[A-Za-zÀ-ÿ0-9]` of src/main.py line 68. -/
def isAlnumEstCb (c : Char) : Bool :=
  c.isAlphanum || (0xC0 ≤ c.toNat && c.toNat ≤ 0xFF)

/-- `re.sub(r'([.,;:!?])([A-Za-zÀ-ÿ0-9])', r'\1 \2', l)`: insert a space
between punctuation and a directly following (extended) alphanumeric. -/
def aggiungiSpazioDopo : List Char → List Char
  | [] => []
  | [c] => [c]
  | a :: b :: rest =>
    if isPunctCb a && isAlnumEstCb b then a :: ' ' :: aggiungiSpazioDopo (b :: rest)
    else a :: aggiungiSpazioDopo (b :: rest)

/-- `re.sub(r'\(\s+', '(', l)`: drop whitespace directly after an opening
parenthesis; the flag records being right after `(` (or dropped space). -/
def pulisciParenApGo : Bool → List Char → List Char
  | _, [] => []
  | dopo, c :: rest =>
    if dopo && isSpCb c then pulisciParenApGo true rest
    else if c == '(' then '(' :: pulisciParenApGo true rest
    else c :: pulisciParenApGo false rest

/-- `re.sub(r'\s+\)', ')', l)`: drop a whitespace run directly before a
closing parenthesis. -/
def pulisciParenChGo : List Char → List Char → List Char
  | pend, [] => pend.reverse
  | pend, c :: rest =>
    if isSpCb c then pulisciParenChGo (c :: pend) rest
    else if c == ')' then ')' :: pulisciParenChGo [] rest
    else pend.reverse ++ c :: pulisciParenChGo [] rest

/-- The control-character class `[\x00-\x08\x0b-\x0c\x0e-\x1f\x7f]` of
src/main.py line 76. -/
def isControlloCb (c : Char) : Bool :=
  c.toNat ≤ 0x08 || (0x0b ≤ c.toNat && c.toNat ≤ 0x0c) ||
    (0x0e ≤ c.toNat && c.toNat ≤ 0x1f) || c.toNat == 0x7f

/-- `pulisci_testo_ocr` (src/main.py lines 17–78). -/
def pulisci_testo_ocr (testo : String) : String :=
  if testo = "" then ""
  else
    let t1 := testo.data.filter (fun c => !glifiDecorativi.contains c)
    let linee_pulite := ((splitNl t1).map stripL).filter tieniLinea
    let t2 := List.intercalate [' '] linee_pulite
    let t3 := collapseGo t2 false
    let t4 := togliSpaziPrimaGo [] t3
    let t5 := aggiungiSpazioDopo t4
    let t6 := pulisciParenApGo false t5
    let t7 := pulisciParenChGo [] t6
    let t8 := t7.filter (fun c => !isControlloCb c)
    String.mk (stripL t8)

/-- `pat` occurs as a contiguous substring. -/
def containsSub (pat : List Char) : List Char → Bool
  | [] => pat.isEmpty
  | c :: rest => pat.isPrefixOf (c :: rest) || containsSub pat rest

/-- The page-combination core of `estrai_testo_completo_pdf` (src/main.py
lines 236–255), taking the per-page native and OCR text lists as inputs (the
PDF/OCR engines are external collaborators): pad the shorter list with empty
strings, merge page by page in index order, keep the non-empty results, join
with single spaces. -/
def estrai_testo_completo_pdf (testi_nativi testi_ocr : List String) : String :=
  let num_pagine := max testi_nativi.length testi_ocr.length
  let tn := testi_nativi ++ List.replicate (num_pagine - testi_nativi.length) ""
  let tocr := testi_ocr ++ List.replicate (num_pagine - testi_ocr.length) ""
  let testi_finali :=
    ((List.range num_pagine).map
        (fun i => unisci_testo_pagina (tn.getD i "") (tocr.getD i ""))).filter
      (fun t => t != "")
  String.intercalate " " testi_finali

/-- Outcome of one program run: the process exit status and the output files
written (name, content). -/
structure RunOutcome where
  exitCode : Nat
  filesScritti : List (String × String)
deriving DecidableEq

/-- `pdf_file.stem + ".txt"`. -/
def nomeOutput (nome : String) : String :=
  (if "pdf.".data.isPrefixOf nome.data.reverse then
    String.mk (nome.data.take (nome.data.length - 4))
  else nome) ++ ".txt"

/-- Models the command surface: the `__main__` block plus `elabora_cartella`
(src/main.py lines 299–386).  External effects are explicit inputs: `libsOk`
(the import of the OCR/PDF libraries succeeded), `argv` (`sys.argv`),
`dirEsiste` (the input directory exists), `pdfs` (the directory's PDF files,
already in the processed order), `estratti` (the text each PDF yields, i.e.
the result of `estrai_testo_completo_pdf` for it), `parole_per_blocco` (the
validated words-per-block answer).  A normal `return` is exit status 0;
`sys.exit(1)` is status 1.  Prints are dropped. -/
def programRun (libsOk : Bool) (argv : List String) (dirEsiste : Bool)
    (pdfs : List String) (estratti : String → String)
    (parole_per_blocco : Nat) : RunOutcome :=
  if libsOk = false then ⟨1, []⟩
  else if argv.length < 2 then ⟨1, []⟩
  else if dirEsiste = false then ⟨0, []⟩
  else if pdfs = [] then ⟨0, []⟩
  else
    ⟨0,
      (pdfs.filter (fun p => stripS (estratti p) != "")).map
        (fun p => (nomeOutput p, dividi_in_blocchi_con_frasi (estratti p) parole_per_blocco))⟩

/-! ### Properties of the similarity scorer -/

lemma cpl_self (l : List Char) : cpl l l = l.length := by
  induction l with
  | nil => rfl
  | cons c t ih => simp [cpl, ih]

lemma cpl_le_left (a : List Char) : ∀ b : List Char, cpl a b ≤ a.length := by
  induction a with
  | nil => intro b; cases b <;> simp [cpl]
  | cons c t ih =>
    intro b
    cases b with
    | nil => simp [cpl]
    | cons d u =>
      by_cases h : c = d
      · simpa [cpl, h] using ih u
      · simp [cpl, h]

lemma bestOver_stable (a b : List Char) :
    ∀ (ps : List (Nat × Nat)) (acc : Nat × Nat × Nat),
      (∀ p : Nat × Nat, cpl (a.drop p.1) (b.drop p.2) ≤ acc.2.2) →
      bestOver a b ps acc = acc := by
  intro ps
  induction ps with
  | nil => intro acc _; rfl
  | cons p ps ih =>
    intro acc h
    have hp := h p
    simp only [bestOver]
    rw [if_neg (by omega)]
    exact ih acc h

lemma bestMatch_self (l : List Char) (h : l ≠ []) :
    bestMatch l l = (0, 0, l.length) := by
  obtain ⟨c, t, rfl⟩ : ∃ c t, l = c :: t := by
    cases l with
    | nil => exact absurd rfl h
    | cons c t => exact ⟨c, t, rfl⟩
  have hsplit :
      pairsFrom 0 (c :: t).length (c :: t).length =
        (0, 0) ::
          (((natsFrom 1 t.length).map (fun j => ((0 : Nat), j))) ++
            pairsFrom 1 t.length (c :: t).length) := rfl
  unfold bestMatch
  rw [hsplit]
  simp only [bestOver, List.drop_zero]
  rw [if_pos (by rw [cpl_self]; simp)]
  rw [cpl_self]
  exact bestOver_stable (c :: t) (c :: t) _ _
    (fun p => by
      calc cpl ((c :: t).drop p.1) ((c :: t).drop p.2) ≤ ((c :: t).drop p.1).length :=
            cpl_le_left _ _
        _ ≤ (c :: t).length := by simp [List.length_drop]
        _ = (0, 0, (c :: t).length).2.2 := rfl)

lemma matchTotalF_nil_nil (fuel : Nat) : matchTotalF fuel [] [] = 0 := by
  cases fuel with
  | zero => rfl
  | succ k => rfl

lemma matchTotal_self (l : List Char) (h : l ≠ []) : matchTotal l l = l.length := by
  unfold matchTotal
  rw [show l.length + l.length + 1 = (l.length + l.length) + 1 from rfl]
  simp only [matchTotalF, bestMatch_self l h]
  rw [if_neg (by simpa using h)]
  simp [matchTotalF_nil_nil]

/-- The claim C3, part 1 helper: self-similarity of a non-empty string. -/
lemma calcola_similarita_self (x : String) (hx : x ≠ "") :
    calcola_similarita x x = 1 := by
  have hd : x.data ≠ [] := by
    intro hnil
    exact hx (String.ext (by simpa using hnil))
  have hL : lowerL x.data ≠ [] := by
    intro hnil
    exact hd (by simpa [lowerL] using hnil)
  have hlen : (lowerL x.data).length ≠ 0 := by
    simpa [List.length_eq_zero] using hL
  unfold calcola_similarita
  rw [if_neg (fun h => hx (h.elim id id))]
  unfold rapporto
  rw [matchTotal_self _ hL]
  have hq : ((lowerL x.data).length : ℚ) ≠ 0 := by
    exact_mod_cast hlen
  field_simp
  ring

/-- C3: similarity is 1.0 on any non-empty string against itself, and 0.0
whenever either argument is the empty string. -/
theorem claim_C3 (x y : String) :
    (x ≠ "" → calcola_similarita x x = 1) ∧
    calcola_similarita "" y = 0 ∧ calcola_similarita y "" = 0 := by
  refine ⟨calcola_similarita_self x, ?_, ?_⟩
  · unfold calcola_similarita
    rw [if_pos (Or.inl rfl)]
  · unfold calcola_similarita
    rw [if_pos (Or.inr rfl)]

/-- Witness for C3 at the non-empty string "hello world". -/
theorem claim_C3_witness :
    ("hello world" : String) ≠ "" ∧ calcola_similarita "hello world" "hello world" = 1 :=
  ⟨by decide, (claim_C3 "hello world" "x").1 (by decide)⟩

/-- C1: with both inputs non-empty of trimmed length at least 10 and
similarity above 0.80, the merger returns the native text unchanged. -/
theorem claim_C1 (native ocr : String)
    (h1 : native ≠ "") (h2 : 10 ≤ (stripS native).length)
    (h3 : ocr ≠ "") (h4 : 10 ≤ (stripS ocr).length)
    (h5 : calcola_similarita native ocr > 8 / 10) :
    unisci_testo_pagina native ocr = native := by
  unfold unisci_testo_pagina
  rw [if_neg (by push_neg; exact ⟨h1, by omega⟩),
    if_neg (by push_neg; exact ⟨h3, by omega⟩), if_pos h5]

/-- Witness for C1: two near-identical ten-letter strings. -/
theorem claim_C1_witness :
    (("abcdefghij" : String) ≠ "" ∧ 10 ≤ (stripS "abcdefghij").length ∧
      ("abcdefghijk" : String) ≠ "" ∧ 10 ≤ (stripS "abcdefghijk").length ∧
      calcola_similarita "abcdefghij" "abcdefghijk" > 8 / 10) ∧
    unisci_testo_pagina "abcdefghij" "abcdefghijk" = "abcdefghij" := by
  have hsim : calcola_similarita "abcdefghij" "abcdefghijk" > 8 / 10 := by
    have hM : matchTotal (lowerL "abcdefghij".data) (lowerL "abcdefghijk".data) = 10 := by
      decide
    have hl1 : (lowerL "abcdefghij".data).length = 10 := by decide
    have hl2 : (lowerL "abcdefghijk".data).length = 11 := by decide
    unfold calcola_similarita
    rw [if_neg (by decide)]
    unfold rapporto
    rw [hM, hl1, hl2]
    norm_num
  exact ⟨⟨by decide, by decide, by decide, by decide, hsim⟩,
    claim_C1 _ _ (by decide) (by decide) (by decide) (by decide) hsim⟩

/-- C5: merging with an empty OCR side returns the native text, merging with
an empty native side returns the OCR text, and when the native side is empty
or short and the OCR side is empty the result is the empty string. -/
theorem claim_C5 (N O : String) :
    (N ≠ "" → 10 ≤ (stripS N).length → unisci_testo_pagina N "" = N) ∧
    (O ≠ "" → 10 ≤ (stripS O).length → unisci_testo_pagina "" O = O) ∧
    ((N = "" ∨ (stripS N).length < 10) → unisci_testo_pagina N "" = "") := by
  refine ⟨?_, ?_, ?_⟩
  · intro h1 h2
    unfold unisci_testo_pagina
    rw [if_neg (by push_neg; exact ⟨h1, by omega⟩), if_pos (Or.inl rfl)]
  · intro h1 _
    unfold unisci_testo_pagina
    rw [if_pos (Or.inl rfl), if_pos h1]
  · intro h
    unfold unisci_testo_pagina
    rw [if_pos h, if_neg (by simp)]

/-- Witness for C5 on concrete ten-character pages and a short page. -/
theorem claim_C5_witness :
    unisci_testo_pagina "abcdefghij" "" = "abcdefghij" ∧
    unisci_testo_pagina "" "klmnopqrst" = "klmnopqrst" ∧
    unisci_testo_pagina "ab" "" = "" :=
  ⟨(claim_C5 "abcdefghij" "x").1 (by decide) (by decide),
    (claim_C5 "x" "klmnopqrst").2.1 (by decide) (by decide),
    (claim_C5 "ab" "x").2.2 (Or.inr (by decide))⟩

/-- The characterization of unique OCR supplements given by the
specification (§4.4 step 4): stripped OCR fragments of trimmed length at
least 15 that are valid sentences and whose case-folded similarity to every
native fragment stays at or below 0.85, in original OCR order. -/
def frasiUnicheSpec (native ocr : String) : List String :=
  ((splitDropS ocr).map stripS).filter
    (fun f =>
      decide (15 ≤ f.length) && is_frase_valida f &&
        decide (∀ fb ∈ splitDropS (lowerS native),
          calcola_similarita (lowerS f) (stripS fb) ≤ 85 / 100))

lemma trovaLoop_eq (fb : List String) :
    ∀ l : List String,
      trovaLoop fb l =
        (l.map stripS).filter
          (fun f =>
            decide (15 ≤ f.length) && is_frase_valida f &&
              decide (∀ b ∈ fb, calcola_similarita (lowerS f) (stripS b) ≤ 85 / 100)) := by
  intro l
  induction l with
  | nil => rfl
  | cons frase rest ih =>
    simp only [trovaLoop, List.map_cons, List.filter_cons]
    by_cases h1 : stripS frase = "" ∨ (stripS frase).length < 15
    · have hlen : ¬ (15 ≤ (stripS frase).length) := by
        rcases h1 with h | h
        · rw [h]; decide
        · omega
      rw [if_pos h1, ih]
      simp [hlen]
    · have hlen : 15 ≤ (stripS frase).length := by
        rcases not_or.mp h1 with ⟨_, hsz⟩
        omega
      rw [if_neg h1]
      by_cases h2 : is_frase_valida (stripS frase) = false
      · rw [if_pos h2, ih]
        simp [h2]
      · have h2' : is_frase_valida (stripS frase) = true := by
          cases hb : is_frase_valida (stripS frase)
          · exact absurd hb h2
          · rfl
        rw [if_neg h2]
        by_cases h3 : ∃ b ∈ fb,
            calcola_similarita (lowerS (stripS frase)) (stripS b) > 85 / 100
        · rw [if_pos h3, ih]
          have hnall :
              ¬ ∀ b ∈ fb,
                calcola_similarita (lowerS (stripS frase)) (stripS b) ≤ 85 / 100 := by
            push_neg
            obtain ⟨b, hb, hgt⟩ := h3
            exact ⟨b, hb, hgt⟩
          simp [hlen, h2', hnall]
        · rw [if_neg h3, ih]
          have hall :
              ∀ b ∈ fb,
                calcola_similarita (lowerS (stripS frase)) (stripS b) ≤ 85 / 100 := by
            intro b hb
            by_contra hgt
            exact h3 ⟨b, hb, not_le.mp hgt⟩
          simp only [hlen, h2', hall, decide_eq_true_eq]
          simp [hlen, h2', hall]
          rw [if_pos hall]

/-- C2: below the 0.80 dominance cutoff, the unique supplements are exactly
the qualifying OCR fragments (trimmed length ≥ 15, valid, maximum case-folded
similarity to every native fragment ≤ 0.85, original order), and the merge
result appends them to the native text with ". " separators, or returns the
native text unchanged when none qualify. -/
theorem claim_C2 (native ocr : String)
    (h1 : native ≠ "") (h2 : 10 ≤ (stripS native).length)
    (h3 : ocr ≠ "") (h4 : 10 ≤ (stripS ocr).length)
    (h5 : calcola_similarita native ocr ≤ 8 / 10) :
    trova_frasi_uniche native ocr = frasiUnicheSpec native ocr ∧
    unisci_testo_pagina native ocr =
      (if frasiUnicheSpec native ocr ≠ [] then
        native ++ ". " ++ String.intercalate ". " (frasiUnicheSpec native ocr)
      else native) := by
  have htrova : trova_frasi_uniche native ocr = frasiUnicheSpec native ocr := by
    unfold trova_frasi_uniche frasiUnicheSpec
    rw [if_neg h3, if_neg h1]
    exact trovaLoop_eq _ _
  refine ⟨htrova, ?_⟩
  unfold unisci_testo_pagina
  rw [if_neg (by push_neg; exact ⟨h1, by omega⟩),
    if_neg (by push_neg; exact ⟨h3, by omega⟩), if_neg (not_lt.mpr h5)]
  simp only [htrova]

/-- Witness for C2: a native page and an OCR page over disjoint alphabets,
so the OCR sentence qualifies as a supplement. -/
theorem claim_C2_witness :
    calcola_similarita "abcde fghij." "zzzz yyyy xxxx www." ≤ 8 / 10 ∧
    (trova_frasi_uniche "abcde fghij." "zzzz yyyy xxxx www." =
        frasiUnicheSpec "abcde fghij." "zzzz yyyy xxxx www." ∧
      unisci_testo_pagina "abcde fghij." "zzzz yyyy xxxx www." =
        (if frasiUnicheSpec "abcde fghij." "zzzz yyyy xxxx www." ≠ [] then
          "abcde fghij." ++ ". " ++
            String.intercalate ". " (frasiUnicheSpec "abcde fghij." "zzzz yyyy xxxx www.")
        else "abcde fghij.")) := by
  have hsim : calcola_similarita "abcde fghij." "zzzz yyyy xxxx www." ≤ 8 / 10 := by
    have hM :
        matchTotal (lowerL "abcde fghij.".data) (lowerL "zzzz yyyy xxxx www.".data) = 2 := by
      decide
    have hl1 : (lowerL "abcde fghij.".data).length = 12 := by decide
    have hl2 : (lowerL "zzzz yyyy xxxx www.".data).length = 19 := by decide
    unfold calcola_similarita
    rw [if_neg (by decide)]
    unfold rapporto
    rw [hM, hl1, hl2]
    norm_num
  exact ⟨hsim, claim_C2 _ _ (by decide) (by decide) (by decide) (by decide) hsim⟩

/-! ### Properties of the sentence-aware chunking -/

/-- A fragment ends with a sentence terminator. -/
def endsTermL (f : List Char) : Bool :=
  match f.getLast? with
  | some c => isTermCb c
  | none => false

lemma buildBlocks_flatten (ppb : Nat) :
    ∀ (l cur : List (List Char)) (cnt : Nat),
      (buildBlocks ppb l cur cnt).flatten = cur ++ l := by
  intro l
  induction l with
  | nil =>
    intro cur cnt
    by_cases h : cur = []
    · simp [buildBlocks, h]
    · simp [buildBlocks, h]
  | cons f rest ih =>
    intro cur cnt
    simp only [buildBlocks]
    by_cases h : cnt + wc f > ppb ∧ cur ≠ []
    · rw [if_pos h]
      simp [ih]
    · rw [if_neg h]
      rw [ih]
      simp

lemma buildBlocks_ne_nil (ppb : Nat) :
    ∀ (l cur : List (List Char)) (cnt : Nat) (B : List (List Char)),
      B ∈ buildBlocks ppb l cur cnt → B ≠ [] := by
  intro l
  induction l with
  | nil =>
    intro cur cnt B hB
    by_cases h : cur = []
    · simp [buildBlocks, h] at hB
    · simp only [buildBlocks, if_neg h, List.mem_singleton] at hB
      subst hB
      exact h
  | cons f rest ih =>
    intro cur cnt B hB
    simp only [buildBlocks] at hB
    by_cases h : cnt + wc f > ppb ∧ cur ≠ []
    · rw [if_pos h] at hB
      rcases List.mem_cons.mp hB with hB | hB
      · subst hB
        exact h.2
      · exact ih _ _ B hB
    · rw [if_neg h] at hB
      exact ih _ _ B hB

lemma buildBlocks_inv (ppb : Nat) :
    ∀ (l cur : List (List Char)) (cnt : Nat),
      cnt = wcSum cur →
      (wcSum cur ≤ ppb ∨ ∃ f, cur = [f] ∧ ppb < wc f) →
      ∀ B ∈ buildBlocks ppb l cur cnt,
        wcSum B ≤ ppb ∨ ∃ f, B = [f] ∧ ppb < wc f := by
  intro l
  induction l with
  | nil =>
    intro cur cnt _ hP B hB
    by_cases h : cur = []
    · simp [buildBlocks, h] at hB
    · simp only [buildBlocks, if_neg h, List.mem_singleton] at hB
      subst hB
      exact hP
  | cons f rest ih =>
    intro cur cnt hcnt hP B hB
    subst hcnt
    simp only [buildBlocks] at hB
    by_cases h : wcSum cur + wc f > ppb ∧ cur ≠ []
    · rw [if_pos h] at hB
      rcases List.mem_cons.mp hB with hB | hB
      · subst hB
        exact hP
      · refine ih [f] (wc f) (by simp [wcSum]) ?_ B hB
        by_cases hf : wc f ≤ ppb
        · exact Or.inl (by simpa [wcSum] using hf)
        · exact Or.inr ⟨f, rfl, by omega⟩
    · rw [if_neg h] at hB
      refine ih (cur ++ [f]) (wcSum cur + wc f) (by simp [wcSum]) ?_ B hB
      rcases Decidable.not_and_iff_or_not.mp h with h | h
      · refine Or.inl ?_
        simp only [wcSum] at h ⊢
        simp only [List.map_append, List.sum_append, List.map_cons, List.map_nil,
          List.sum_cons, List.sum_nil]
        omega
      · have hcur : cur = [] := by
          by_contra hc
          exact h hc
        subst hcur
        by_cases hf : wc f ≤ ppb
        · exact Or.inl (by simpa [wcSum] using hf)
        · exact Or.inr ⟨f, by simp, by omega⟩

/-- C6: every block respects the word budget, except that a single fragment
whose own word count exceeds the budget forms a block by itself. -/
theorem claim_C6 (testo : String) (parole_per_blocco : Nat)
    (hp : 0 < parole_per_blocco) :
    ∀ B ∈ blocchiDi testo parole_per_blocco,
      wcSum B ≤ parole_per_blocco ∨ ∃ f, B = [f] ∧ parole_per_blocco < wc f := by
  unfold blocchiDi
  exact buildBlocks_inv parole_per_blocco _ [] 0 (by simp [wcSum])
    (Or.inl (by simp [wcSum]))

/-- Witness for C6 on a three-sentence text with budget 3. -/
theorem claim_C6_witness :
    0 < 3 ∧
    (wcSum ["one two three.".data] ≤ 3 ∨ ∃ f, ["one two three.".data] = [f] ∧ 3 < wc f) :=
  ⟨by decide,
    claim_C6 "one two three. four five six. seven." 3 (by decide)
      ["one two three.".data] (by decide)⟩

/-- C10: chunking partitions the fragment sequence with no loss, duplication
or reordering: flattening the blocks gives back exactly the fragments. -/
theorem claim_C10 (testo : String) (parole_per_blocco : Nat)
    (hp : 0 < parole_per_blocco) :
    (blocchiDi testo parole_per_blocco).flatten = frasi_complete testo := by
  unfold blocchiDi
  simpa using buildBlocks_flatten parole_per_blocco (frasi_complete testo) [] 0

/-- Witness for C10 on a concrete text with budget 2. -/
theorem claim_C10_witness :
    0 < 2 ∧ (blocchiDi "ab. cd ef." 2).flatten = frasi_complete "ab. cd ef." :=
  ⟨by decide, claim_C10 "ab. cd ef." 2 (by decide)⟩

/-- Shape of the capturing split: text pieces without terminator characters
alternating with non-empty all-terminator runs, starting and ending with a
text piece. -/
inductive AltText : List (List Char) → Prop
  | single (t : List Char) :
      (∀ c ∈ t, isTermCb c = false) → AltText [t]
  | cons (t d : List Char) (rest : List (List Char)) :
      (∀ c ∈ t, isTermCb c = false) → d ≠ [] → (∀ c ∈ d, isTermCb c = true) →
      AltText rest → AltText (t :: d :: rest)

lemma altKeepGo :
    ∀ (rem piece run : List Char),
      (∀ c ∈ piece, isTermCb c = false) → (∀ c ∈ run, isTermCb c = true) →
      AltText (splitKeepGo rem piece run) := by
  intro rem
  induction rem with
  | nil =>
    intro piece run hp hr
    simp only [splitKeepGo]
    by_cases h : run = []
    · rw [if_pos h]
      exact AltText.single _ (fun c hc => hp c (List.mem_reverse.mp hc))
    · rw [if_neg h]
      refine AltText.cons _ _ _ (fun c hc => hp c (List.mem_reverse.mp hc)) ?_
        (fun c hc => hr c (List.mem_reverse.mp hc)) (AltText.single [] (by simp))
      simpa using h
  | cons c rest ih =>
    intro piece run hp hr
    simp only [splitKeepGo]
    by_cases hterm : isTermCb c = true
    · rw [if_pos hterm]
      refine ih piece (c :: run) hp ?_
      intro x hx
      rcases List.mem_cons.mp hx with hx | hx
      · subst hx
        exact hterm
      · exact hr x hx
    · have hterm' : isTermCb c = false := by
        cases hb : isTermCb c
        · rfl
        · exact absurd hb hterm
      rw [if_neg hterm]
      by_cases hrun : run = []
      · rw [if_pos hrun]
        refine ih (c :: piece) run ?_ hr
        intro x hx
        rcases List.mem_cons.mp hx with hx | hx
        · subst hx
          exact hterm'
        · exact hp x hx
      · rw [if_neg hrun]
        refine AltText.cons _ _ _ (fun x hx => hp x (List.mem_reverse.mp hx)) ?_
          (fun x hx => hr x (List.mem_reverse.mp hx)) ?_
        · simpa using hrun
        · refine ih [c] [] ?_ (by simp)
          intro x hx
          rcases List.mem_singleton.mp hx with rfl
          exact hterm'

lemma altText_splitKeepL (l : List Char) : AltText (splitKeepL l) :=
  altKeepGo l [] [] (by simp) (by simp)

lemma term_not_sp (c : Char) (h : isTermCb c = true) : isSpCb c = false := by
  have hc : (c = '.' ∨ c = '!') ∨ c = '?' := by
    simpa [isTermCb, Bool.or_eq_true, beq_iff_eq] using h
  rcases hc with (rfl | rfl) | rfl <;> decide

lemma getLast?_dropWhile_of (p : Char → Bool) :
    ∀ (l : List Char) (c : Char), l.getLast? = some c → p c = false →
      (l.dropWhile p).getLast? = some c := by
  intro l
  induction l with
  | nil =>
    intro c h _
    simp at h
  | cons x xs ih =>
    intro c h hc
    cases xs with
    | nil =>
      have hx : x = c := by simpa using h
      subst hx
      rw [List.dropWhile_cons, if_neg (by simp [hc])]
      simp
    | cons y ys =>
      have h' : (y :: ys).getLast? = some c := by
        simpa [List.getLast?_cons_cons] using h
      rw [List.dropWhile_cons]
      by_cases hx : p x = true
      · rw [if_pos hx]
        exact ih c h' hc
      · rw [if_neg hx]
        exact h

lemma stripL_getLast (l : List Char) (c : Char) (h : l.getLast? = some c)
    (hc : isSpCb c = false) :
    (stripL l).getLast? = some c ∧ stripL l ≠ [] := by
  unfold stripL
  have h1 : (l.dropWhile isSpCb).getLast? = some c :=
    getLast?_dropWhile_of _ l c h hc
  have h2 : (l.dropWhile isSpCb).reverse.head? = some c := by
    rw [List.head?_reverse]
    exact h1
  obtain ⟨t, ht⟩ : ∃ t, (l.dropWhile isSpCb).reverse = c :: t := by
    cases hh : (l.dropWhile isSpCb).reverse with
    | nil => rw [hh] at h2; simp at h2
    | cons a t =>
      rw [hh] at h2
      simp only [List.head?_cons, Option.some.injEq] at h2
      exact ⟨t, by rw [h2]⟩
  rw [ht, List.dropWhile_cons, if_neg (by simp [hc])]
  constructor
  · rw [List.reverse_cons, List.getLast?_concat]
  · simp

lemma coppie_prop :
    ∀ l, AltText l → ∀ f ∈ coppie l, endsTermL f = true ∧ f ≠ [] := by
  intro l h
  induction h with
  | single t ht => simp [coppie]
  | cons t d rest hnt hd hall hrest ih =>
    intro f hf
    rw [show coppie (t :: d :: rest) = stripL (t ++ d) :: coppie rest from rfl] at hf
    rcases List.mem_cons.mp hf with hf | hf
    · subst hf
      have hdl : d.getLast? = some (d.getLast hd) :=
        List.getLast?_eq_getLast_of_ne_nil hd
      have hterm : isTermCb (d.getLast hd) = true := hall _ (List.getLast_mem hd)
      have hlast : (t ++ d).getLast? = some (d.getLast hd) := by
        rw [List.getLast?_append_of_ne_nil t hd]
        exact hdl
      obtain ⟨hgl, hne⟩ := stripL_getLast (t ++ d) _ hlast (term_not_sp _ hterm)
      refine ⟨?_, hne⟩
      unfold endsTermL
      rw [hgl]
      exact hterm
    · exact ih f hf

lemma frasi_dropLast_term (t : String) :
    ∀ f ∈ (frasi_complete t).dropLast, endsTermL f = true := by
  intro f hf
  unfold frasi_complete at hf
  have halt := altText_splitKeepL t.data
  by_cases hcond : (splitKeepL t.data).length % 2 = 1 ∧
      stripL ((splitKeepL t.data).getLastD []) ≠ []
  · rw [if_pos hcond, List.dropLast_concat] at hf
    exact (coppie_prop _ halt f hf).1
  · rw [if_neg hcond] at hf
    exact (coppie_prop _ halt f (List.dropLast_subset _ hf)).1

lemma frasi_ne_nil (t : String) : ∀ f ∈ frasi_complete t, f ≠ [] := by
  intro f hf
  unfold frasi_complete at hf
  have halt := altText_splitKeepL t.data
  by_cases hcond : (splitKeepL t.data).length % 2 = 1 ∧
      stripL ((splitKeepL t.data).getLastD []) ≠ []
  · rw [if_pos hcond] at hf
    rcases List.mem_append.mp hf with hf | hf
    · exact (coppie_prop _ halt f hf).2
    · rcases List.mem_singleton.mp hf with rfl
      exact hcond.2
  · rw [if_neg hcond] at hf
    exact (coppie_prop _ halt f hf).2

/-- C7: in the produced blocks every fragment ends with one of `.`, `!`, `?`,
except possibly the last fragment of the last block, which is a dangling
piece kept only when non-blank (sentences are never cut across blocks). -/
theorem claim_C7 (testo : String) (parole_per_blocco : Nat) :
    (∀ B ∈ (blocchiDi testo parole_per_blocco).dropLast, ∀ f ∈ B, endsTermL f = true) ∧
    (∀ bl, (blocchiDi testo parole_per_blocco).getLast? = some bl →
      (∀ f ∈ bl.dropLast, endsTermL f = true) ∧
      (∀ f, bl.getLast? = some f → endsTermL f = true ∨ f ≠ [])) := by
  have hjoin : (blocchiDi testo parole_per_blocco).flatten = frasi_complete testo := by
    unfold blocchiDi
    simpa using buildBlocks_flatten parole_per_blocco (frasi_complete testo) [] 0
  have hne : ∀ B ∈ blocchiDi testo parole_per_blocco, B ≠ [] := by
    unfold blocchiDi
    exact fun B hB => buildBlocks_ne_nil parole_per_blocco _ [] 0 B hB
  constructor
  · intro B hB f hf
    have hbsne : blocchiDi testo parole_per_blocco ≠ [] := by
      intro h
      rw [h] at hB
      simp at hB
    have hlastmem : (blocchiDi testo parole_per_blocco).getLast hbsne ∈
        blocchiDi testo parole_per_blocco := List.getLast_mem hbsne
    have hlastne := hne _ hlastmem
    have hfin : f ∈ (frasi_complete testo).dropLast := by
      have h1 : f ∈ ((blocchiDi testo parole_per_blocco).dropLast).flatten :=
        List.mem_flatten.mpr ⟨B, hB, hf⟩
      have h2 : frasi_complete testo =
          ((blocchiDi testo parole_per_blocco).dropLast).flatten ++
            (blocchiDi testo parole_per_blocco).getLast hbsne := by
        rw [← hjoin]
        conv_lhs => rw [← List.dropLast_append_getLast hbsne]
        rw [List.flatten_append]
        simp
      rw [h2, List.dropLast_append_of_ne_nil _ hlastne]
      exact List.mem_append_left _ h1
    exact frasi_dropLast_term testo f hfin
  · intro bl hbl
    have hdecomp : (blocchiDi testo parole_per_blocco).dropLast ++ [bl] =
        blocchiDi testo parole_per_blocco :=
      List.dropLast_append_getLast? bl hbl
    have hblmem : bl ∈ blocchiDi testo parole_per_blocco := by
      rw [← hdecomp]
      exact List.mem_append_right _ (by simp)
    have hblne := hne _ hblmem
    constructor
    · intro f hf
      have hfin : f ∈ (frasi_complete testo).dropLast := by
        have h2 : frasi_complete testo =
            ((blocchiDi testo parole_per_blocco).dropLast).flatten ++ bl := by
          rw [← hjoin, ← hdecomp, List.flatten_append]
          simp
        rw [h2, List.dropLast_append_of_ne_nil _ hblne]
        exact List.mem_append_right _ hf
      exact frasi_dropLast_term testo f hfin
    · intro f hfl
      refine Or.inr ?_
      have hfbl : f ∈ bl := by
        have hd2 := List.dropLast_append_getLast? f hfl
        rw [← hd2]
        exact List.mem_append_right _ (by simp)
      have hfj : f ∈ frasi_complete testo := by
        rw [← hjoin]
        exact List.mem_flatten.mpr ⟨bl, hblmem, hfbl⟩
      exact frasi_ne_nil testo f hfj

/-- Witness for C7 on a text whose final fragment is a dangling piece. -/
theorem claim_C7_witness :
    endsTermL "ab cd.".data = true ∧ ("ef".data ≠ ([] : List Char)) :=
  ⟨(claim_C7 "ab cd. ef" 1).1 ["ab cd.".data] (by decide) "ab cd.".data (by decide),
    by
      have h := (claim_C7 "ab cd. ef" 1).2 ["ef".data] (by decide)
      rcases h.2 "ef".data (by decide) with h | h
      · exact absurd h (by decide)
      · exact h⟩

/-- Counterexample to C4: the sanitizer keeps the page-header line "Pag. 3" —
the digits-only filter does not drop it because it contains letters — so the
sanitized text does contain "Pag. 3", contradicting the claim. -/
theorem claim_C4_cex :
    containsSub "Pag. 3".data
      (pulisci_testo_ocr
        "Pag. 3\n- - -\nThis is real content about α and β coefficients.\n").data =
      true := by
  decide

/-- C4 (amended): sanitizing the scenario text keeps the content sentence and
drops the separator line, but retains the "Pag. 3" line, whose letters keep it
out of the digits-only page-number filter. -/
theorem claim_C4 :
    pulisci_testo_ocr
        "Pag. 3\n- - -\nThis is real content about α and β coefficients.\n" =
      "Pag. 3 This is real content about α and β coefficients." ∧
    containsSub "This is real content about α and β coefficients.".data
      (pulisci_testo_ocr
        "Pag. 3\n- - -\nThis is real content about α and β coefficients.\n").data = true ∧
    containsSub "- - -".data
      (pulisci_testo_ocr
        "Pag. 3\n- - -\nThis is real content about α and β coefficients.\n").data =
      false := by
  refine ⟨by decide, by decide, by decide⟩

lemma range_map_getD_eq_zipWith {α β γ : Type} (f : α → β → γ) (d : α) (d' : β) :
    ∀ (n : Nat) (xs : List α) (ys : List β), xs.length = n → ys.length = n →
      (List.range n).map (fun i => f (xs.getD i d) (ys.getD i d')) =
        List.zipWith f xs ys := by
  intro n
  induction n with
  | zero =>
    intro xs ys hx hy
    rw [List.length_eq_zero] at hx hy
    subst hx
    subst hy
    simp
  | succ n ih =>
    intro xs ys hx hy
    cases xs with
    | nil => simp at hx
    | cons x xs' =>
      cases ys with
      | nil => simp at hy
      | cons y ys' =>
        simp only [List.range_succ_eq_map, List.map_cons, List.map_map]
        rw [List.zipWith_cons_cons]
        refine congrArg (f x y :: ·) ?_
        rw [show ((fun i => f ((x :: xs').getD i d) ((y :: ys').getD i d')) ∘ Nat.succ) =
            (fun i => f (xs'.getD i d) (ys'.getD i d')) from rfl]
        exact ih xs' ys' (by simpa using hx) (by simpa using hy)

/-- C8: the assembler pads the shorter page list with empty strings to a
common length, merges page by page in index order, drops empty merge results
and joins the survivors with single spaces in page order. -/
theorem claim_C8 (testi_nativi testi_ocr : List String) :
    (testi_nativi ++
        List.replicate (max testi_nativi.length testi_ocr.length - testi_nativi.length)
          "").length = max testi_nativi.length testi_ocr.length ∧
    (testi_ocr ++
        List.replicate (max testi_nativi.length testi_ocr.length - testi_ocr.length)
          "").length = max testi_nativi.length testi_ocr.length ∧
    estrai_testo_completo_pdf testi_nativi testi_ocr =
      String.intercalate " "
        ((List.zipWith unisci_testo_pagina
            (testi_nativi ++
              List.replicate (max testi_nativi.length testi_ocr.length - testi_nativi.length) "")
            (testi_ocr ++
              List.replicate (max testi_nativi.length testi_ocr.length - testi_ocr.length)
                "")).filter (fun t => t != "")) := by
  have hlen1 :
      (testi_nativi ++
        List.replicate (max testi_nativi.length testi_ocr.length - testi_nativi.length)
          "").length = max testi_nativi.length testi_ocr.length := by
    simp [List.length_append, List.length_replicate]
  have hlen2 :
      (testi_ocr ++
        List.replicate (max testi_nativi.length testi_ocr.length - testi_ocr.length)
          "").length = max testi_nativi.length testi_ocr.length := by
    simp [List.length_append, List.length_replicate]
  refine ⟨hlen1, hlen2, ?_⟩
  simp only [estrai_testo_completo_pdf]
  rw [range_map_getD_eq_zipWith unisci_testo_pagina "" ""
    (max testi_nativi.length testi_ocr.length) _ _ hlen1 hlen2]

/-- Counterexample to C9: with the libraries available and a valid command
line but a missing input directory, the program prints an error and returns
normally — the process exit status is 0, not non-zero. -/
theorem claim_C9_cex :
    (programRun true ["main.py", "slides"] false [] (fun _ => "") 100).exitCode = 0 ∧
    (programRun true ["main.py", "slides"] false [] (fun _ => "") 100).filesScritti = [] :=
  ⟨rfl, rfl⟩

/-- C9 (amended): when the input directory does not exist the program writes
no output files, but it exits with status 0 (plain `return` after the error
message), for every command line with at least the directory argument. -/
theorem claim_C9 (argv : List String) (pdfs : List String)
    (estratti : String → String) (parole_per_blocco : Nat)
    (h : 2 ≤ argv.length) :
    (programRun true argv false pdfs estratti parole_per_blocco).exitCode = 0 ∧
    (programRun true argv false pdfs estratti parole_per_blocco).filesScritti = [] := by
  unfold programRun
  rw [if_neg (by simp), if_neg (by omega), if_pos rfl]
  exact ⟨rfl, rfl⟩

/-- Witness for C9 at a concrete two-argument command line. -/
theorem claim_C9_witness :
    2 ≤ (["main.py", "cartella"] : List String).length ∧
    ((programRun true ["main.py", "cartella"] false [] (fun _ => "") 100).exitCode = 0 ∧
      (programRun true ["main.py", "cartella"] false [] (fun _ => "") 100).filesScritti = []) :=
  ⟨by decide, claim_C9 ["main.py", "cartella"] [] (fun _ => "") 100 (by decide)⟩
